import Mathlib

/-!
Verification development for the BitRPC repository.

Bytes are modelled as natural numbers below 256, byte buffers as lists of
naturals.  Machine integers are modelled as Nat or Int with explicit
reductions modulo two to the word width where the C++ code performs
implicit conversions or wrap-around arithmetic.  Fallible operations
return Except or Option values.  Each definition is a shallow embedding
of one function of the C++ source, named after it.
-/

namespace BitRPC

/-- Errors raised by the stream readers: underflow models the
buffer-underflow / end-of-stream exception thrown by the C++ readers,
invalidRange models reaching the std string range constructor with an
inverted range (last before first), which has no defined result in C++. -/
inductive RErr where
  | underflow
  | invalidRange
  deriving DecidableEq

instance {ε α : Type} [DecidableEq ε] [DecidableEq α] : DecidableEq (Except ε α) := fun x y =>
  match x, y with
  | .error a, .error b =>
    if h : a = b then isTrue (by rw [h]) else isFalse (by simp [h])
  | .error _, .ok _ => isFalse (by simp)
  | .ok _, .error _ => isFalse (by simp)
  | .ok a, .ok b =>
    if h : a = b then isTrue (by rw [h]) else isFalse (by simp [h])

/-- Little-endian 4-byte encoding of a 32-bit value, the memcpy of an
int32 or uint32 on a little-endian host. -/
def u32le (n : Nat) : List Nat :=
  [n % 256, n / 256 % 256, n / 65536 % 256, n / 16777216 % 256]

/-- Little-endian decode of the first four bytes of a buffer, the
reinterpretation of four bytes as a uint32 on a little-endian host. -/
def leU32 (l : List Nat) : Nat :=
  l.getD 0 0 + 256 * l.getD 1 0 + 65536 * l.getD 2 0 + 16777216 * l.getD 3 0

/-- Reinterpret an unsigned 32-bit value as a signed int32 (two's
complement). -/
def toInt32 (u : Nat) : Int :=
  if u < 2147483648 then (u : Int) else (u : Int) - 4294967296

/-- Contiguous slice of a byte buffer: len bytes starting at off (a
memcpy out of the buffer). -/
def extractL (l : List Nat) (off len : Nat) : List Nat :=
  (l.drop off).take len

/-- Overwrite the buffer starting at off with the bytes of src (a memcpy
into the buffer); the buffer keeps its length whenever off plus the
source length fits. -/
def writeAt (l : List Nat) (off : Nat) (src : List Nat) : List Nat :=
  l.take off ++ src ++ l.drop (off + src.length)

/-- StreamReader.read_int32 of rpc_core.cpp and serialization.cpp: checks
that four bytes remain past the position cursor, decodes them
little-endian and advances the cursor. -/
def read_int32 (data : List Nat) (pos : Nat) : Except RErr (Int × Nat) :=
  if pos + 4 > data.length then .error .underflow
  else .ok (toInt32 (leU32 (extractL data pos 4)), pos + 4)

namespace RpcCore

/-- StreamWriter.write_int32 of rpc_core.cpp: appends the four
little-endian bytes of the int32 representation. -/
def write_int32 (value : Int) : List Nat :=
  u32le ((value.emod 4294967296).toNat)

/-- StreamWriter.write_string of rpc_core.cpp lines 144-151: an empty
string is written as length minus one, otherwise int32 length followed by
the raw bytes. -/
def write_string (value : List Nat) : List Nat :=
  if value = [] then write_int32 (-1)
  else write_int32 (Int.ofNat value.length) ++ value

end RpcCore

namespace Ser

/-- StreamReader.read_string of serialization.cpp lines 389-397: reads an
int32 length and then checks position plus length against the buffer
size.  The C++ addition converts the int32 length to size_t first, so a
negative length wraps modulo two to the 64; when the wrapped check passes
with a negative length, the std string range constructor receives an
inverted range, which is undefined in C++ and modelled as invalidRange.
There is no special case for length minus one or zero in this version. -/
def read_string (data : List Nat) (pos : Nat) : Except RErr (List Nat × Nat) :=
  match read_int32 data pos with
  | .error e => .error e
  | .ok (length, p) =>
    let lenSz : Nat := (length.emod 18446744073709551616).toNat
    if (p + lenSz) % 18446744073709551616 > data.length then .error .underflow
    else if length < 0 then .error .invalidRange
    else .ok (extractL data p lenSz, p + lenSz)

end Ser

/-- Values handled by the type-handler registry; enough constructors to
exercise the built-in scalar and string handlers. -/
inductive Value where
  | i32 (v : Int)
  | str (s : List Nat)
  deriving DecidableEq

/-- A type handler of rpc_core.h: hashCode is the stable wire identifier
returned by hash_code(), typeHash is the native type identity
typeid(T).hash_code() under which register_handler stores the handler
(an implementation-defined value, modelled as an arbitrary Nat). -/
structure TypeHandler where
  hashCode : Int
  typeHash : Nat
  write : Value → List Nat
  read : List Nat → Nat → Except RErr (Value × Nat)

namespace RpcCore

/-- BufferSerializer.get_handler of rpc_core.cpp: looks a handler up in
the map keyed by native type identity. -/
def get_handler (handlers : List TypeHandler) (type_hash : Nat) : Option TypeHandler :=
  handlers.find? (fun h => h.typeHash == type_hash)

/-- BufferSerializer.get_handler_by_hash_code of rpc_core.cpp: looks a
handler up in the map keyed by the wire hash code. -/
def get_handler_by_hash_code (handlers : List TypeHandler) (hash_code : Int) : Option TypeHandler :=
  handlers.find? (fun h => h.hashCode == hash_code)

/-- StreamWriter.write_object of rpc_core.cpp lines 158-172: an absent
object writes int32 minus one; otherwise the handler is looked up by the
native type identity, and its wire hash code is written followed by the
handler payload; with no handler registered, minus one is written. -/
def write_object (handlers : List TypeHandler) (obj : Option Value) (type_hash : Nat) :
    List Nat :=
  match obj with
  | none => write_int32 (-1)
  | some v =>
    match get_handler handlers type_hash with
    | some h => write_int32 h.hashCode ++ h.write v
    | none => write_int32 (-1)

/-- StreamReader.read_object of rpc_core.cpp lines 256-269: reads the
int32 code; minus one yields absence; otherwise the code calls
get_handler (the native-type-identity map, converting the int32 code to
size_t), not get_handler_by_hash_code, and yields absence when that
lookup misses. -/
def read_object (handlers : List TypeHandler) (data : List Nat) (pos : Nat) :
    Except RErr (Option Value × Nat) :=
  match read_int32 data pos with
  | .error e => .error e
  | .ok (hash_code, p) =>
    if hash_code = -1 then .ok (none, p)
    else
      match get_handler handlers ((hash_code.emod 18446744073709551616).toNat) with
      | some h =>
        match h.read data p with
        | .ok (v, q) => .ok (some v, q)
        | .error e => .error e
      | none => .ok (none, p)

end RpcCore

/-- The Int32Handler of rpc_core.cpp, with wire hash code 101.  Its
native type identity typeid(int32) is implementation-defined and in
practice never equals a small wire code; the stand-in value 7777 models
that. -/
def int32Handler : TypeHandler where
  hashCode := 101
  typeHash := 7777
  write := fun v => match v with
    | .i32 n => RpcCore.write_int32 n
    | _ => []
  read := fun data pos =>
    match read_int32 data pos with
    | .ok (n, p) => .ok (.i32 n, p)
    | .error e => .error e

/-- A registry holding the int32 handler, as built by init_handlers. -/
def testRegistry : List TypeHandler := [int32Handler]

namespace Client

/-- State of TcpStreamResponseReader of client.cpp. -/
structure ReaderState where
  streamEnded : Bool
  hasError : Bool
  connectionClosed : Bool
  deriving DecidableEq

/-- Freshly constructed reader: all flags false. -/
def initReader : ReaderState :=
  { streamEnded := false, hasError := false, connectionClosed := false }

/-- TcpStreamResponseReader.mark_error of client.cpp: latches the error
and ends the stream. -/
def mark_error (st : ReaderState) : ReaderState :=
  { st with hasError := true, streamEnded := true }

/-- The 10 MiB frame-size cap of client.cpp. -/
def MAX_FRAME_SIZE : Nat := 10 * 1024 * 1024

/-- TcpStreamResponseReader.has_more of client.cpp. -/
def has_more (st : ReaderState) : Bool :=
  !st.streamEnded && !st.connectionClosed && !st.hasError

/-- Outcome of one read_next_frame call: success flag, frame bytes, new
reader state and the socket bytes left unconsumed. -/
structure FrameResult where
  ok : Bool
  frame : List Nat
  state : ReaderState
  rest : List Nat
  deriving DecidableEq

/-- TcpStreamResponseReader.read_next_frame of client.cpp lines 405-452
over a byte stream standing for the socket: reads the 4-byte frame
length; zero length is turned into a 4-byte all-zero buffer and reported
as success; a length over 10 MiB latches an error without reading the
payload; otherwise the payload is read in full or the connection is
marked closed. -/
def read_next_frame (st : ReaderState) (input : List Nat) : FrameResult :=
  if input.length = 0 then
    { ok := false, frame := [],
      state := mark_error { st with connectionClosed := true }, rest := input }
  else if input.length < 4 then
    { ok := false, frame := [], state := mark_error st, rest := [] }
  else
    let frame_length := leU32 input
    let rest := input.drop 4
    if frame_length = 0 then
      { ok := true, frame := [0, 0, 0, 0], state := st, rest := rest }
    else if frame_length > MAX_FRAME_SIZE then
      { ok := false, frame := [], state := mark_error st, rest := rest }
    else if rest.length < frame_length then
      { ok := false, frame := [],
        state := mark_error { st with connectionClosed := true }, rest := [] }
    else
      { ok := true, frame := rest.take frame_length, state := st,
        rest := rest.drop frame_length }

/-- Result of read_next: a delivered frame body (empty when the stream
has ended), or one of the two thrown exceptions. -/
inductive ReadOutcome where
  | ok (frame : List Nat)
  | streamExn
  | connExn
  deriving DecidableEq

/-- TcpStreamResponseReader.read_next of client.cpp lines 334-386 for a
reader constructed by stream_async (response type hash zero, so frames
are returned as raw bytes): after a successful read_next_frame, a frame
body of exactly four bytes that decodes to the uint32 zero is taken as
the end-of-stream marker, ending the stream without delivering the
frame. -/
def read_next (st : ReaderState) (input : List Nat) :
    ReadOutcome × ReaderState × List Nat :=
  if st.hasError then (.streamExn, st, input)
  else if st.streamEnded then (.ok [], st, input)
  else if st.connectionClosed then (.connExn, st, input)
  else
    let r := read_next_frame st input
    if !r.ok then
      if r.state.hasError then (.streamExn, r.state, r.rest)
      else (.ok [], r.state, r.rest)
    else if r.frame.length = 4 && leU32 r.frame == 0 then
      (.ok [], { r.state with streamEnded := true }, r.rest)
    else (.ok r.frame, r.state, r.rest)

end Client

namespace Server

/-- is_printable_ascii of server.cpp for a single byte. -/
def printableByte (c : Nat) : Bool :=
  32 ≤ c && c ≤ 126

/-- Result of a registered unary or async method wrapper (server.h):
either the serialized response bytes, a null response pointer, or a
thrown exception (for instance a request decode failure inside the
wrapper). -/
inductive UnaryResult where
  | ok (bytes : List Nat)
  | nullResp
  | exn
  deriving DecidableEq

/-- Result of call_stream_method: a null reader, a reader yielding the
given frames, or a thrown exception. -/
inductive StreamResult where
  | nullReader
  | reader (frames : List (List Nat))
  | exn
  deriving DecidableEq

/-- A registered service: its name and the three method registries of
BaseService in server.h (methods_, async_methods_, stream_methods_),
keyed by method name. -/
structure Service where
  name : List Nat
  streamMethods : List (List Nat × StreamResult)
  unaryMethods : List (List Nat × (List Nat → UnaryResult))
  asyncMethods : List (List Nat × (List Nat → UnaryResult))

/-- BaseService.has_stream_method. -/
def has_stream_method (svc : Service) (m : List Nat) : Bool :=
  (svc.streamMethods.find? (fun p => p.1 == m)).isSome

/-- BaseService.has_method (the unary registry). -/
def has_method (svc : Service) (m : List Nat) : Bool :=
  (svc.unaryMethods.find? (fun p => p.1 == m)).isSome

/-- BaseService.has_async_method. -/
def has_async_method (svc : Service) (m : List Nat) : Bool :=
  (svc.asyncMethods.find? (fun p => p.1 == m)).isSome

/-- Frames the server emits for a stream reader: each frame is sent, an
empty frame makes the loop break after sending it; the list ends when
has_more turns false.  An empty frame in the output stands for a frame
header with length zero and no body. -/
def streamLoop : List (List Nat) → List (List Nat)
  | [] => []
  | f :: rest => if f.length = 0 then [[]] else f :: streamLoop rest

/-- Frames emitted on the stream path of handle_client (server.cpp lines
309-336): a null reader sends just the zero terminator; otherwise the
relay loop runs and the explicit zero terminator follows; an exception is
caught and answered with one empty response frame. -/
def streamDispatch (svc : Service) (m : List Nat) : List (List Nat) :=
  match (svc.streamMethods.find? (fun p => p.1 == m)).map Prod.snd with
  | some .nullReader => [[]]
  | some (.reader frames) => streamLoop frames ++ [[]]
  | some .exn => [[]]
  | none => [[]]

/-- Frames emitted on the unary path of handle_client (server.cpp lines
338-355): the response bytes as one frame, a length-zero frame for a null
response, and a caught exception answered with one empty frame. -/
def unaryDispatch (svc : Service) (m : List Nat) (request : List Nat) : List (List Nat) :=
  match (svc.unaryMethods.find? (fun p => p.1 == m)).map Prod.snd with
  | some f =>
    match f request with
    | .ok bytes => [bytes]
    | .nullResp => [[]]
    | .exn => [[]]
  | none => [[]]

/-- Frames emitted on the async path of handle_client (server.cpp lines
357-375), identical in shape to the unary path. -/
def asyncDispatch (svc : Service) (m : List Nat) (request : List Nat) : List (List Nat) :=
  match (svc.asyncMethods.find? (fun p => p.1 == m)).map Prod.snd with
  | some f =>
    match f request with
    | .ok bytes => [bytes]
    | .nullResp => [[]]
    | .exn => [[]]
  | none => [[]]

/-- The dispatch block of handle_client (server.cpp lines 308-380): the
stream registry is consulted first, then the unary registry, then the
async registry; when no registry holds the method, the block falls
through and no response frame at all is sent. -/
def dispatch (svc : Service) (m : List Nat) (request : List Nat) : List (List Nat) :=
  if has_stream_method svc m then streamDispatch svc m
  else if has_method svc m then unaryDispatch svc m request
  else if has_async_method svc m then asyncDispatch svc m request
  else []

/-- Method-name extraction of handle_client (server.cpp lines 271-293):
format A reads a u32 length prefix and accepts it when positive, in
bounds and all-printable; otherwise format B takes the printable-ASCII
prefix.  Returns the method-name bytes and the request bytes. -/
def parsePayload (payload : List Nat) : List Nat × List Nat :=
  let fallback :=
    let p := payload.takeWhile printableByte
    (p, payload.drop p.length)
  if payload.length ≥ 4 then
    let mlen := leU32 payload
    if mlen > 0 ∧ 4 + mlen ≤ payload.length
        ∧ ((payload.drop 4).take mlen).all printableByte = true then
      ((payload.drop 4).take mlen, payload.drop (4 + mlen))
    else fallback
  else fallback

/-- TcpRpcServer.parse_method_name of server.cpp lines 389-395: split at
the first dot (byte 46); with no dot the whole string is the service and
the method is empty. -/
def parse_method_name (m : List Nat) : List Nat × List Nat :=
  let pre := m.takeWhile (fun c => c != 46)
  if pre.length = m.length then (m, [])
  else (pre, m.drop (pre.length + 1))

/-- ServiceManager.get_service: first service whose name matches. -/
def get_service (services : List Service) (sname : List Nat) : Option Service :=
  services.find? (fun s => s.name == sname)

/-- One request processed by handle_client (server.cpp lines 271-380)
after the payload bytes are in hand: parse the method name, split
service and method, look the service up (a missing service is answered
with one empty frame) and dispatch.  Every path continues the
connection. -/
def processRequest (services : List Service) (payload : List Nat) : List (List Nat) :=
  let mr := parsePayload payload
  let sm := parse_method_name mr.1
  match get_service services sm.1 with
  | none => [[]]
  | some svc => dispatch svc sm.2 mr.2

/-- Outcome of one iteration of the handle_client receive loop: the
connection is dropped, or it continues with the frames sent and the
socket bytes left over. -/
inductive StepResult where
  | closed
  | cont (frames : List (List Nat)) (rest : List Nat)

/-- One iteration of the handle_client receive loop (server.cpp lines
261-381): read the 4-byte payload length (closing on a short read), skip
zero-length payloads, read the declared number of payload bytes (closing
on a short read) and process the request.  No upper bound is placed on
the declared length. -/
def serverStep (services : List Service) (input : List Nat) : StepResult :=
  if input.length < 4 then .closed
  else
    let payload_length := leU32 input
    let rest := input.drop 4
    if payload_length = 0 then .cont [] rest
    else if rest.length < payload_length then .closed
    else .cont (processRequest services (rest.take payload_length))
      (rest.drop payload_length)

end Server

/-- A request payload in the length-prefixed format A: u32 method-name
length, the method-name bytes, then the request bytes. -/
def mkPayload (method req : List Nat) : List Nat :=
  u32le method.length ++ method ++ req

/-- A service named Test with unary methods Echo (echoes the request
bytes) and Bad (its wrapper throws, as a request decode failure does). -/
def svcTest : Server.Service where
  name := [84, 101, 115, 116]
  streamMethods := []
  unaryMethods :=
    [([69, 99, 104, 111], fun r => .ok r),
     ([66, 97, 100], fun _ => .exn)]
  asyncMethods := []

/-- A service whose method A sits in all three registries with three
distinct handlers. -/
def svcAll : Server.Service where
  name := [83]
  streamMethods := [([65], .reader [[1]])]
  unaryMethods := [([65], fun _ => .ok [2])]
  asyncMethods := [([65], fun _ => .ok [3])]

/-- A service whose method A sits in the unary and async registries. -/
def svcUnaryAsync : Server.Service where
  name := [83]
  streamMethods := []
  unaryMethods := [([65], fun _ => .ok [2])]
  asyncMethods := [([65], fun _ => .ok [3])]

/-- A service whose method A sits only in the async registry. -/
def svcAsyncOnly : Server.Service where
  name := [83]
  streamMethods := []
  unaryMethods := []
  asyncMethods := [([65], fun _ => .ok [3])]

/-- The declared length of one byte over the 10 MiB cap. -/
def oversize : Nat := 10485761

namespace RingBuffer

/-- State of the SPSC ring buffer of ring_buffer.cpp: the configured
capacity, the data region, and the two virtual (never-wrapping) cursors
of the header. -/
structure RBState where
  cap : Nat
  buf : List Nat
  wpos : Nat
  rpos : Nat
  deriving DecidableEq

/-- A freshly created buffer: zeroed data region, both cursors zero. -/
def initRB (cap : Nat) : RBState :=
  { cap := cap, buf := List.replicate cap 0, wpos := 0, rpos := 0 }

/-- Physical write with wrap-around (ring_buffer.cpp lines 210-222): the
first chunk goes at the physical index wpos mod cap, the remainder at the
start of the data region. -/
def physWrite (cap : Nat) (buf : List Nat) (wpos : Nat) (src : List Nat) : List Nat :=
  let off := wpos % cap
  let first := min src.length (cap - off)
  writeAt (writeAt buf off (src.take first)) 0 (src.drop first)

/-- Physical read with wrap-around (ring_buffer.cpp lines 289-302): first
chunk from the physical index rpos mod cap, the remainder from the start
of the data region. -/
def physRead (cap : Nat) (buf : List Nat) (rpos : Nat) (n : Nat) : List Nat :=
  let off := rpos % cap
  let first := min n (cap - off)
  extractL buf off first ++ extractL buf 0 (n - first)

/-- RingBuffer.write of ring_buffer.cpp lines 193-234: a null or empty
source fails; a request larger than the free space fails leaving the
state unchanged; otherwise the bytes are copied (splitting on wrap) and
the write cursor advances. -/
def write (s : RBState) (data : List Nat) : Bool × RBState :=
  if data.length = 0 then (false, s)
  else
    let free := s.cap - (s.wpos - s.rpos)
    if data.length > free then (false, s)
    else
      (true, { s with buf := physWrite s.cap s.buf s.wpos data,
                      wpos := s.wpos + data.length })

/-- RingBuffer.write_atomic of ring_buffer.cpp lines 236-266: fails when
the request does not fit in free space or would wrap past the end of the
data region; otherwise one contiguous copy and the cursor advances. -/
def write_atomic (s : RBState) (data : List Nat) : Bool × RBState :=
  let free := s.cap - (s.wpos - s.rpos)
  if data.length > free then (false, s)
  else
    let off := s.wpos % s.cap
    if off + data.length ≤ s.cap then
      (true, { s with buf := writeAt s.buf off data, wpos := s.wpos + data.length })
    else (false, s)

/-- RingBuffer.read of ring_buffer.cpp lines 268-314: a zero-sized
destination fails; an empty buffer succeeds returning no bytes; otherwise
up to the available amount is copied (splitting on wrap) and the read
cursor advances by the amount read. -/
def read (s : RBState) (n : Nat) : Bool × List Nat × RBState :=
  if n = 0 then (false, [], s)
  else
    let avail := s.wpos - s.rpos
    if avail = 0 then (true, [], s)
    else
      let toRead := min avail n
      (true, physRead s.cap s.buf s.rpos toRead, { s with rpos := s.rpos + toRead })

/-- RingBuffer.peek of ring_buffer.cpp lines 316-349: as read, but the
cursor stays put. -/
def peek (s : RBState) (n : Nat) : Bool × List Nat :=
  if n = 0 then (false, [])
  else
    let avail := s.wpos - s.rpos
    if avail = 0 then (true, [])
    else (true, physRead s.cap s.buf s.rpos (min avail n))

/-- RingBuffer.skip of ring_buffer.cpp lines 351-372: fails when more
than the available amount is requested, otherwise advances the read
cursor. -/
def skip (s : RBState) (n : Nat) : Bool × RBState :=
  let avail := s.wpos - s.rpos
  if n > avail then (false, s)
  else (true, { s with rpos := s.rpos + n })

/-- RingBuffer.get_free_space of ring_buffer.cpp. -/
def get_free_space (s : RBState) : Nat :=
  s.cap - (s.wpos - s.rpos)

/-- The well-formedness invariant of an initialized ring buffer: positive
capacity, a data region of exactly that size, and cursors with
read at most write, at most capacity apart. -/
def Inv (s : RBState) : Prop :=
  0 < s.cap ∧ s.buf.length = s.cap ∧ s.rpos ≤ s.wpos ∧ s.wpos - s.rpos ≤ s.cap

instance (s : RBState) : Decidable (Inv s) := by
  unfold Inv; infer_instance

/-- The byte queue a ring-buffer state represents: the bytes between the
read cursor and the write cursor, read out through the physical mapping
pos mod cap. -/
def contents (s : RBState) : List Nat :=
  (List.range (s.wpos - s.rpos)).map (fun k => s.buf.getD ((s.rpos + k) % s.cap) 0)

/-- The four cursor-moving operations of the ring buffer. -/
inductive RBOp where
  | wr (data : List Nat)
  | wrAtomic (data : List Nat)
  | rd (n : Nat)
  | sk (n : Nat)

/-- Apply one operation to the state, discarding the reported result. -/
def applyOp (s : RBState) : RBOp → RBState
  | .wr data => (write s data).2
  | .wrAtomic data => (write_atomic s data).2
  | .rd n => (read s n).2.2
  | .sk n => (skip s n).2

/-- The operations of the FIFO claim: producer writes and consumer
reads, interleaved arbitrarily. -/
inductive Op where
  | wr (data : List Nat)
  | rd (n : Nat)

/-- Run a sequence of operations from a state; yields the final state,
the concatenation of all bytes returned by the reads, and whether every
write reported success. -/
def runOps (s : RBState) : List Op → RBState × List Nat × Bool
  | [] => (s, [], true)
  | .wr c :: rest =>
    let w := write s c
    let r := runOps w.2 rest
    (r.1, r.2.1, w.1 && r.2.2)
  | .rd n :: rest =>
    let rd := read s n
    let r := runOps rd.2.2 rest
    (r.1, rd.2.1 ++ r.2.1, r.2.2)

/-- Concatenation of all written chunks in write order. -/
def writesConcat (ops : List Op) : List Nat :=
  (ops.map (fun op => match op with | .wr c => c | .rd _ => [])).flatten

end RingBuffer

namespace SharedMemory

/-- Little-endian 8-byte encoding of a 64-bit value. -/
def u64le (n : Nat) : List Nat :=
  [n % 256, n / 256 % 256, n / 65536 % 256, n / 16777216 % 256,
   n / 4294967296 % 256, n / 1099511627776 % 256,
   n / 281474976710656 % 256, n / 72057594037927936 % 256]

/-- Little-endian decode of eight bytes. -/
def leU64 (l : List Nat) : Nat :=
  l.getD 0 0 + 256 * l.getD 1 0 + 65536 * l.getD 2 0 + 16777216 * l.getD 3 0
    + 4294967296 * l.getD 4 0 + 1099511627776 * l.getD 5 0
    + 281474976710656 * l.getD 6 0 + 72057594037927936 * l.getD 7 0

/-- The packed 24-byte message header of shared_memory_manager.h:
u32 message_id, u32 message_type, u32 payload_size, u64 timestamp,
u8 flags, 3 reserved bytes. -/
structure MessageHeader where
  message_id : Nat
  message_type : Nat
  payload_size : Nat
  timestamp : Nat
  flags : Nat
  deriving DecidableEq

/-- A shared-memory message: header plus payload bytes. -/
structure SharedMemoryMessage where
  header : MessageHeader
  payload : List Nat
  deriving DecidableEq

/-- SharedMemoryMessage.serialize of shared_memory_manager.cpp lines
38-50: the raw header bytes (reserved bytes zero) followed by the
payload. -/
def serialize (m : SharedMemoryMessage) : List Nat :=
  u32le m.header.message_id ++ u32le m.header.message_type
    ++ u32le m.header.payload_size ++ u64le m.header.timestamp
    ++ [m.header.flags % 256] ++ [0, 0, 0] ++ m.payload

/-- Decode the fixed 24-byte header prefix of a byte buffer. -/
def parseHeader (data : List Nat) : MessageHeader :=
  { message_id := leU32 data,
    message_type := leU32 (data.drop 4),
    payload_size := leU32 (data.drop 8),
    timestamp := leU64 (data.drop 12),
    flags := data.getD 20 0 }

/-- SharedMemoryMessage.deserialize of shared_memory_manager.cpp lines
52-69: fails when fewer than 24 bytes are given or when the declared
payload_size exceeds the bytes past the header; on success the payload is
assigned every byte from offset 24 to the end of the buffer (data + size),
not just payload_size bytes. -/
def deserialize (data : List Nat) : Option SharedMemoryMessage :=
  if data.length < 24 then none
  else
    let hdr := parseHeader data
    if hdr.payload_size > data.length - 24 then none
    else some { header := hdr, payload := data.drop 24 }

/-- SharedMemoryManager.receive_message of shared_memory_manager.cpp
lines 182-220 over the ring-buffer state: wait_for_data times out on an
empty buffer; otherwise the manager peeks into a scratch buffer of
max_message_size bytes (reading min of available and max_message_size),
deserializes the peeked bytes, and on success skips bytes_read, that is,
everything that was peeked. -/
def receive_message (maxMsg : Nat) (s : RingBuffer.RBState) :
    Option SharedMemoryMessage × RingBuffer.RBState :=
  if s.wpos - s.rpos = 0 then (none, s)
  else
    let pk := RingBuffer.peek s maxMsg
    if pk.1 = false then (none, s)
    else if pk.2.length = 0 then (none, s)
    else
      match deserialize pk.2 with
      | none => (none, s)
      | some m => (some m, (RingBuffer.skip s pk.2.length).2)

/-- First message of the C3 scenario: id 1, type DATA, one payload
byte. -/
def msgA : SharedMemoryMessage :=
  { header := { message_id := 1, message_type := 1, payload_size := 1,
                timestamp := 0, flags := 0 },
    payload := [7] }

/-- Second message of the C3 scenario: id 2, type DATA, empty payload. -/
def msgB : SharedMemoryMessage :=
  { header := { message_id := 2, message_type := 1, payload_size := 0,
                timestamp := 0, flags := 0 },
    payload := [] }

/-- A ring buffer of capacity 128 into which the producer has written the
two messages in order, as send_message does. -/
def twoMsgState : RingBuffer.RBState :=
  (RingBuffer.write
    (RingBuffer.write (RingBuffer.initRB 128) (serialize msgA)).2
    (serialize msgB)).2

end SharedMemory

/-- C4. String codec: the claim says writing the empty string emits length
minus one and that reading length minus one or zero both succeed and
yield the empty string, so that every string round-trips.  On the cited
code the second half fails: StreamWriter.write_string of rpc_core.cpp
emits the four bytes 255,255,255,255 for the empty string, but
StreamReader.read_string of serialization.cpp has no minus-one case; its
bounds check passes via unsigned wrap-around and the string construction
receives an inverted range (undefined behaviour, never a successful empty
string).  Length zero does decode to the empty string and nonempty
strings do round-trip. -/
theorem read_string_rejects_null_sentinel :
    RpcCore.write_string [] = [255, 255, 255, 255]
    ∧ Ser.read_string (RpcCore.write_string []) 0 = .error .invalidRange
    ∧ Ser.read_string [0, 0, 0, 0] 0 = .ok ([], 4)
    ∧ Ser.read_string (RpcCore.write_string [104, 105]) 0 = .ok ([104, 105], 6) := by
  decide

/-- C1. Polymorphic object round-trip: the claim says read_object looks
the handler up by its wire hash code, so that reading the bytes of
write_object gives the value back.  The code instead passes the wire code
to get_handler, the map keyed by native type identity, so the lookup
misses for every registered handler whose native identity differs from
its wire code (all of them in practice) and read_object yields absence:
writing int32 42 produces code 101 plus payload, and reading it back
gives none, not the value.  The lookup in the correct map would have
found the handler.  The absent-value half of the claim does hold:
write_object of absence emits minus one and read_object of minus one
yields absence. -/
theorem readObject_writeObject_loses_value :
    RpcCore.write_object testRegistry (some (.i32 42)) 7777
      = RpcCore.write_int32 101 ++ RpcCore.write_int32 42
    ∧ RpcCore.read_object testRegistry
        (RpcCore.write_object testRegistry (some (.i32 42)) 7777) 0 = .ok (none, 4)
    ∧ (RpcCore.get_handler_by_hash_code testRegistry 101).isSome = true
    ∧ RpcCore.write_object testRegistry none 7777 = RpcCore.write_int32 (-1)
    ∧ RpcCore.read_object testRegistry (RpcCore.write_int32 (-1)) 0 = .ok (none, 4) := by
  decide

/-- C10. The client stream reader treats any received frame whose body is
exactly four all-zero bytes as the end-of-stream marker: on a socket
carrying the frame length 4 followed by the body 0,0,0,0 (a legitimate
non-terminal frame at the wire level, where the terminator is the
zero-length frame), read_next delivers nothing, marks the stream ended
and has_more becomes false. -/
theorem four_zero_frame_ends_stream :
    Client.read_next Client.initReader [4, 0, 0, 0, 0, 0, 0, 0]
      = (.ok [], { streamEnded := true, hasError := false, connectionClosed := false }, [])
    ∧ Client.has_more
        (Client.read_next Client.initReader [4, 0, 0, 0, 0, 0, 0, 0]).2.1 = false := by
  decide

/-- When a declared frame length parses to a value over the 10 MiB cap,
read_next_frame latches an error without consuming the payload. -/
theorem read_next_frame_rejects_oversize (n : Nat) (tail : List Nat)
    (hlo : Client.MAX_FRAME_SIZE < n) (hhi : n < 4294967296) :
    Client.read_next_frame Client.initReader (u32le n ++ tail)
      = { ok := false, frame := [],
          state := Client.mark_error Client.initReader, rest := tail } := by
  have hlen : (u32le n ++ tail).length = 4 + tail.length := by
    simp [u32le]; omega
  have hget : leU32 (u32le n ++ tail) = n := by
    simp only [leU32, u32le, List.cons_append, List.getD_cons_zero, List.getD_cons_succ]
    omega
  have hdrop : (u32le n ++ tail).drop 4 = tail := by
    simp [u32le]
  rw [Client.read_next_frame]
  rw [hget, hdrop, hlen]
  have h0 : ¬ (4 + tail.length = 0) := by omega
  have h4 : ¬ (4 + tail.length < 4) := by omega
  have hn0 : ¬ (n = 0) := by
    have : (0 : Nat) < Client.MAX_FRAME_SIZE := by decide
    omega
  simp only [if_neg h0, if_neg h4, if_neg hn0, if_pos hlo]

/-- Witness for the oversize rejection: the declared length one over the
10 MiB cap makes read_next_frame fail with a latched error. -/
theorem read_next_frame_rejects_oversize_witness :
    Client.read_next_frame Client.initReader (u32le 10485761 ++ [])
      = { ok := false, frame := [],
          state := Client.mark_error Client.initReader, rest := [] } :=
  read_next_frame_rejects_oversize 10485761 [] (by decide) (by decide)

/-- C2. The claim says an unknown service, an unknown method within a
registered service, and a request decode failure each produce exactly one
length-zero response frame, the connection continuing.  The code does so
for an unknown service (Other.Echo below) and for a decode failure
(Test.Bad, whose wrapper throws and is caught), but for an unknown method
within a registered service (Test.Nope) the dispatch block falls through
all three registries and sends no response frame at all, leaving the
client waiting. -/
theorem unknown_method_sends_no_frame :
    Server.processRequest [svcTest]
      (mkPayload [79, 116, 104, 101, 114, 46, 69, 99, 104, 111] []) = [[]]
    ∧ Server.processRequest [svcTest]
      (mkPayload [84, 101, 115, 116, 46, 66, 97, 100] [1, 2]) = [[]]
    ∧ Server.processRequest [svcTest]
      (mkPayload [84, 101, 115, 116, 46, 78, 111, 112, 101] []) = [] := by
  decide

/-- C9. Dispatch resolution order of handle_client: the stream registry
is consulted first, then the unary registry, then the async registry, and
the first registry holding the method name determines the invoked
handler, regardless of what the later registries hold. -/
theorem dispatch_resolution_order (svc : Server.Service) (m req : List Nat) :
    (Server.has_stream_method svc m = true →
      Server.dispatch svc m req = Server.streamDispatch svc m)
    ∧ (Server.has_stream_method svc m = false →
        Server.has_method svc m = true →
        Server.dispatch svc m req = Server.unaryDispatch svc m req)
    ∧ (Server.has_stream_method svc m = false →
        Server.has_method svc m = false →
        Server.has_async_method svc m = true →
        Server.dispatch svc m req = Server.asyncDispatch svc m req) := by
  refine ⟨fun h1 => ?_, fun h1 h2 => ?_, fun h1 h2 h3 => ?_⟩ <;>
    simp [Server.dispatch, h1]
  · simp [h2]
  · simp [h2, h3]

/-- Witness for C9: concrete services carrying one method name in
several registries; the stream handler wins over unary and async, the
unary handler wins over async, and the async handler is reached only
alone. -/
theorem dispatch_resolution_order_witness :
    Server.dispatch svcAll [65] [] = Server.streamDispatch svcAll [65]
    ∧ Server.dispatch svcUnaryAsync [65] [] = Server.unaryDispatch svcUnaryAsync [65] []
    ∧ Server.dispatch svcAsyncOnly [65] [] = Server.asyncDispatch svcAsyncOnly [65] [] :=
  ⟨(dispatch_resolution_order svcAll [65] []).1 (by decide),
   (dispatch_resolution_order svcUnaryAsync [65] []).2.1 (by decide) (by decide),
   (dispatch_resolution_order svcAsyncOnly [65] []).2.2 (by decide) (by decide) (by decide)⟩

lemma getD_replicate_zero (n i : Nat) : (List.replicate n (0 : Nat)).getD i 0 = 0 := by
  simp

lemma takeWhile_printable_replicate_zero (n : Nat) :
    (List.replicate n (0 : Nat)).takeWhile Server.printableByte = [] := by
  cases n with
  | zero => rfl
  | succ k => simp [List.takeWhile_replicate, Server.printableByte]

/-- C5 counterexample. The claim says the server treats a declared
payload length over 10 MiB as a protocol error and terminates the
connection.  On a frame declaring 10 MiB plus one byte (with that many
payload bytes following), handle_client instead reads the whole payload
and dispatches it: here, with no services registered, it answers with the
empty unknown-service frame and keeps the connection open.  The server
code contains no frame-size check at all. -/
theorem server_accepts_oversized_frame :
    Server.serverStep [] (u32le oversize ++ List.replicate oversize 0)
      = .cont [[]] []
    ∧ Server.serverStep [] (u32le oversize ++ List.replicate oversize 0)
      ≠ .closed := by
  have hlen : (u32le oversize ++ List.replicate oversize 0).length = 4 + oversize := by
    rw [List.length_append, List.length_replicate]
    simp [u32le]
  have hget : leU32 (u32le oversize ++ List.replicate oversize 0) = oversize := by
    simp only [leU32, u32le, List.cons_append, List.getD_cons_zero, List.getD_cons_succ]
    norm_num [oversize]
  have hdrop : (u32le oversize ++ List.replicate oversize 0).drop 4
      = List.replicate oversize 0 := by
    simp [u32le]
  have hproc : Server.processRequest [] (List.replicate oversize 0) = [[]] := by
    have hp : Server.parsePayload (List.replicate oversize 0)
        = ([], List.replicate oversize 0) := by
      rw [Server.parsePayload]
      have h4 : (List.replicate oversize (0 : Nat)).length ≥ 4 := by
        rw [List.length_replicate]; norm_num [oversize]
      rw [if_pos h4]
      have hm : leU32 (List.replicate oversize 0) = 0 := by
        simp [leU32, getD_replicate_zero]
      rw [hm]
      rw [if_neg (fun h => absurd h.1 (by omega))]
      rw [takeWhile_printable_replicate_zero]
      simp only [List.length_nil, List.drop_zero]
    rw [Server.processRequest, hp]
    simp [Server.parse_method_name, Server.get_service]
  have hmain : Server.serverStep [] (u32le oversize ++ List.replicate oversize 0)
      = .cont [[]] [] := by
    rw [Server.serverStep]
    rw [hlen, hget, hdrop]
    have h1 : ¬ (4 + oversize < 4) := by omega
    rw [if_neg h1]
    have h2 : ¬ (oversize = 0) := by norm_num [oversize]
    rw [if_neg h2]
    have h3 : ¬ ((List.replicate oversize (0 : Nat)).length < oversize) := by
      rw [List.length_replicate]; omega
    rw [if_neg h3]
    rw [List.take_replicate, List.drop_replicate, Nat.min_self, Nat.sub_self]
    rw [hproc]
    simp
  exact ⟨hmain, by rw [hmain]; exact fun hc => Server.StepResult.noConfusion hc⟩

namespace RingBuffer

lemma writeAt_length (l : List Nat) (off : Nat) (src : List Nat)
    (h : off + src.length ≤ l.length) : (writeAt l off src).length = l.length := by
  simp only [writeAt, List.length_append, List.length_take, List.length_drop]
  omega

lemma physWrite_length (cap : Nat) (buf : List Nat) (wpos : Nat) (src : List Nat)
    (hbuf : buf.length = cap) (hsrc : src.length ≤ cap) (hcap : 0 < cap) :
    (physWrite cap buf wpos src).length = cap := by
  have hoff : wpos % cap < cap := Nat.mod_lt _ hcap
  have h1 : (writeAt buf (wpos % cap) (src.take (min src.length (cap - wpos % cap)))).length
      = buf.length := by
    apply writeAt_length
    simp only [List.length_take]
    omega
  simp only [physWrite]
  rw [writeAt_length, h1, hbuf]
  rw [h1, hbuf]
  simp only [List.length_drop]
  omega

lemma write_Inv (s : RBState) (data : List Nat) (h : Inv s) :
    Inv (write s data).2 ∧ s.rpos ≤ (write s data).2.rpos
      ∧ s.wpos ≤ (write s data).2.wpos := by
  obtain ⟨hc, hb, hrw, hcap⟩ := h
  rw [write]
  by_cases h0 : data.length = 0
  · simp only [if_pos h0]
    exact ⟨⟨hc, hb, hrw, hcap⟩, Nat.le_refl _, Nat.le_refl _⟩
  · rw [if_neg h0]
    by_cases h1 : data.length > s.cap - (s.wpos - s.rpos)
    · simp only [if_pos h1]
      exact ⟨⟨hc, hb, hrw, hcap⟩, Nat.le_refl _, Nat.le_refl _⟩
    · simp only [if_neg h1]
      refine ⟨⟨hc, ?_, by first | omega | (dsimp only; omega), by first | omega | (dsimp only; omega)⟩,
        Nat.le_refl _, by omega⟩
      exact physWrite_length _ _ _ _ hb (by omega) hc

lemma write_atomic_Inv (s : RBState) (data : List Nat) (h : Inv s) :
    Inv (write_atomic s data).2 ∧ s.rpos ≤ (write_atomic s data).2.rpos
      ∧ s.wpos ≤ (write_atomic s data).2.wpos := by
  obtain ⟨hc, hb, hrw, hcap⟩ := h
  rw [write_atomic]
  by_cases h1 : data.length > s.cap - (s.wpos - s.rpos)
  · simp only [if_pos h1]
    exact ⟨⟨hc, hb, hrw, hcap⟩, Nat.le_refl _, Nat.le_refl _⟩
  · simp only [if_neg h1]
    by_cases h2 : s.wpos % s.cap + data.length ≤ s.cap
    · simp only [if_pos h2]
      refine ⟨⟨hc, ?_, by first | omega | (dsimp only; omega), by first | omega | (dsimp only; omega)⟩,
        Nat.le_refl _, by omega⟩
      rw [writeAt_length]
      · exact hb
      · omega
    · simp only [if_neg h2]
      exact ⟨⟨hc, hb, hrw, hcap⟩, Nat.le_refl _, Nat.le_refl _⟩

lemma read_Inv (s : RBState) (n : Nat) (h : Inv s) :
    Inv (read s n).2.2 ∧ s.rpos ≤ (read s n).2.2.rpos
      ∧ s.wpos ≤ (read s n).2.2.wpos := by
  obtain ⟨hc, hb, hrw, hcap⟩ := h
  rw [read]
  by_cases h0 : n = 0
  · simp only [if_pos h0]
    exact ⟨⟨hc, hb, hrw, hcap⟩, Nat.le_refl _, Nat.le_refl _⟩
  · rw [if_neg h0]
    by_cases h1 : s.wpos - s.rpos = 0
    · simp only [if_pos h1]
      exact ⟨⟨hc, hb, hrw, hcap⟩, Nat.le_refl _, Nat.le_refl _⟩
    · simp only [if_neg h1]
      exact ⟨⟨hc, hb, by first | omega | (dsimp only; omega), by first | omega | (dsimp only; omega)⟩,
        by omega, Nat.le_refl _⟩

lemma skip_Inv (s : RBState) (n : Nat) (h : Inv s) :
    Inv (skip s n).2 ∧ s.rpos ≤ (skip s n).2.rpos ∧ s.wpos ≤ (skip s n).2.wpos := by
  obtain ⟨hc, hb, hrw, hcap⟩ := h
  rw [skip]
  by_cases h1 : n > s.wpos - s.rpos
  · simp only [if_pos h1]
    exact ⟨⟨hc, hb, hrw, hcap⟩, Nat.le_refl _, Nat.le_refl _⟩
  · simp only [if_neg h1]
    exact ⟨⟨hc, hb, by first | omega | (dsimp only; omega), by first | omega | (dsimp only; omega)⟩,
      by omega, Nat.le_refl _⟩

lemma initRB_Inv (cap : Nat) (h : 0 < cap) : Inv (initRB cap) :=
  ⟨h, by simp [initRB], Nat.le_refl _, by simp [initRB]⟩

lemma getD_take' (l : List Nat) (n i : Nat) (h : i < n) :
    (l.take n).getD i 0 = l.getD i 0 := by
  simp [List.getD_eq_getElem?_getD, List.getElem?_take, h]

lemma getD_drop' (l : List Nat) (n i : Nat) : (l.drop n).getD i 0 = l.getD (n + i) 0 := by
  simp [List.getD_eq_getElem?_getD, List.getElem?_drop]

lemma getD_append_left' (l1 l2 : List Nat) (i : Nat) (h : i < l1.length) :
    (l1 ++ l2).getD i 0 = l1.getD i 0 := by
  simp [List.getD_eq_getElem?_getD, List.getElem?_append, h]

lemma getD_append_right' (l1 l2 : List Nat) (i : Nat) (h : l1.length ≤ i) :
    (l1 ++ l2).getD i 0 = l2.getD (i - l1.length) 0 := by
  simp [List.getD_eq_getElem?_getD, List.getElem?_append_right h]

lemma getD_writeAt (l : List Nat) (off : Nat) (src : List Nat) (i : Nat)
    (hfit : off + src.length ≤ l.length) :
    (writeAt l off src).getD i 0 =
      if off ≤ i ∧ i < off + src.length then src.getD (i - off) 0 else l.getD i 0 := by
  have hto : (l.take off).length = off := by
    simp [List.length_take]; omega
  rw [writeAt]
  by_cases h1 : i < off
  · rw [getD_append_left' _ _ _ (by simp [List.length_take]; omega),
      getD_append_left' _ _ _ (by simp [List.length_take]; omega),
      getD_take' _ _ _ h1, if_neg (fun hh => absurd hh.1 (by omega))]
  · by_cases h2 : i < off + src.length
    · rw [getD_append_left' _ _ _ (by simp [List.length_take]; omega),
        getD_append_right' _ _ _ (by simp [List.length_take]; omega), hto,
        if_pos ⟨by omega, h2⟩]
    · rw [getD_append_right' _ _ _ (by simp [List.length_take]; omega)]
      rw [getD_drop']
      rw [if_neg (fun hh => absurd hh.2 (by omega))]
      congr 1
      simp [List.length_take]
      omega

lemma length_extractL (l : List Nat) (off len : Nat) :
    (extractL l off len).length = min len (l.length - off) := by
  simp [extractL]

lemma getD_extractL (l : List Nat) (off len i : Nat) (h : i < len) :
    (extractL l off len).getD i 0 = l.getD (off + i) 0 := by
  rw [extractL, getD_take' _ _ _ h, getD_drop']

lemma physRead_rangeMap (cap : Nat) (buf : List Nat) (rpos n : Nat)
    (hbuf : buf.length = cap) (hn : n ≤ cap) (hcap : 0 < cap) :
    physRead cap buf rpos n
      = (List.range n).map (fun k => buf.getD ((rpos + k) % cap) 0) := by
  have hoff : rpos % cap < cap := Nat.mod_lt _ hcap
  apply List.ext_getElem
  · simp [physRead, length_extractL, hbuf]
    omega
  intro i h1 h2
  have hin : i < n := by
    simpa using h2
  rw [List.getElem_map, List.getElem_range]
  rw [← List.getD_eq_getElem (physRead cap buf rpos n) 0 h1]
  simp only [physRead]
  by_cases hi : i < min n (cap - rpos % cap)
  · rw [getD_append_left' _ _ _ (by rw [length_extractL]; omega)]
    rw [getD_extractL _ _ _ _ hi]
    have hmod : (rpos + i) % cap = rpos % cap + i := by
      rw [Nat.add_mod, Nat.mod_eq_of_lt (show i < cap by omega),
        Nat.mod_eq_of_lt (show rpos % cap + i < cap by omega)]
    rw [hmod]
  · have hfirst : min n (cap - rpos % cap) = cap - rpos % cap := by omega
    rw [getD_append_right' _ _ _ (by rw [length_extractL]; omega)]
    rw [length_extractL]
    have hi2 : i - min (min n (cap - rpos % cap)) (buf.length - rpos % cap)
        = i - (cap - rpos % cap) := by
      rw [hbuf]; omega
    rw [hi2]
    rw [getD_extractL _ _ _ _ (by omega)]
    have hmod : (rpos + i) % cap = i - (cap - rpos % cap) := by
      have h3 : (rpos + i) % cap = (rpos % cap + i) % cap := by
        rw [Nat.add_mod, Nat.mod_eq_of_lt (show i < cap by omega)]
      rw [h3, Nat.mod_eq_sub_mod (show cap ≤ rpos % cap + i by omega),
        Nat.mod_eq_of_lt (show rpos % cap + i - cap < cap by omega)]
      omega
    rw [hmod]
    congr 1
    omega

lemma add_mod_inj (a k m n : Nat) (hk : k < n) (hm : m < n)
    (h : (a + k) % n = (a + m) % n) : k = m :=
  Nat.ModEq.eq_of_lt_of_lt (Nat.ModEq.add_left_cancel' a h) hk hm

lemma getD_physWrite_old (cap : Nat) (buf : List Nat) (wpos rpos used k : Nat)
    (src : List Nat) (hw : wpos = rpos + used) (hbuf : buf.length = cap)
    (hcap : 0 < cap) (hfit : used + src.length ≤ cap) (hk : k < used) :
    (physWrite cap buf wpos src).getD ((rpos + k) % cap) 0
      = buf.getD ((rpos + k) % cap) 0 := by
  subst hw
  simp only [physWrite]
  set off := (rpos + used) % cap with hoffdef
  have hoff : off < cap := Nat.mod_lt _ hcap
  have hi : (rpos + k) % cap < cap := Nat.mod_lt _ hcap
  have hkc : k < cap := by omega
  have hmodk : ∀ j : Nat, j < cap → (rpos + used + j) % cap = (off + j) % cap := by
    intro j hj
    rw [Nat.add_mod (rpos + used) j, Nat.mod_eq_of_lt hj]
  have htake : (src.take (min src.length (cap - off))).length
      = min src.length (cap - off) := by
    simp [List.length_take]
  have hinner : (writeAt buf off (src.take (min src.length (cap - off)))).length = cap := by
    rw [writeAt_length]
    · exact hbuf
    · rw [htake, hbuf]; omega
  rw [getD_writeAt _ _ _ _ (by rw [hinner]; simp [List.length_drop]; omega)]
  by_cases hc1 : 0 ≤ (rpos + k) % cap
      ∧ (rpos + k) % cap < 0 + (src.drop (min src.length (cap - off))).length
  · exfalso
    obtain ⟨-, hlt⟩ := hc1
    simp only [List.length_drop, Nat.zero_add] at hlt
    have hwrap : min src.length (cap - off) = cap - off := by omega
    rw [hwrap] at hlt
    have hj2 : off + (cap - off + (rpos + k) % cap) = cap + (rpos + k) % cap := by
      omega
    have hconj : (rpos + used + (cap - off + (rpos + k) % cap)) % cap
        = (rpos + k) % cap := by
      rw [hmodk _ (by omega), hj2, Nat.add_mod_left, Nat.mod_eq_of_lt hi]
    have := add_mod_inj rpos k (used + (cap - off + (rpos + k) % cap)) cap hkc
      (by omega) (by rw [← Nat.add_assoc]; exact hconj.symm)
    omega
  · rw [if_neg hc1]
    rw [getD_writeAt _ _ _ _ (by rw [htake, hbuf]; omega)]
    by_cases hc2 : off ≤ (rpos + k) % cap
        ∧ (rpos + k) % cap < off + (src.take (min src.length (cap - off))).length
    · exfalso
      obtain ⟨hge, hlt⟩ := hc2
      rw [htake] at hlt
      have hconj : (rpos + used + ((rpos + k) % cap - off)) % cap = (rpos + k) % cap := by
        rw [hmodk _ (by omega), Nat.mod_eq_of_lt (by omega)]
        omega
      have := add_mod_inj rpos k (used + ((rpos + k) % cap - off)) cap hkc
        (by omega) (by rw [← Nat.add_assoc]; exact hconj.symm)
      omega
    · rw [if_neg hc2]

lemma getD_physWrite_new (cap : Nat) (buf : List Nat) (wpos rpos used j : Nat)
    (src : List Nat) (hw : wpos = rpos + used) (hbuf : buf.length = cap)
    (hcap : 0 < cap) (hfit : used + src.length ≤ cap) (hj : j < src.length) :
    (physWrite cap buf wpos src).getD ((rpos + (used + j)) % cap) 0
      = src.getD j 0 := by
  subst hw
  simp only [physWrite]
  set off := (rpos + used) % cap with hoffdef
  have hoff : off < cap := Nat.mod_lt _ hcap
  have hjc : j < cap := by omega
  have hmodj : (rpos + (used + j)) % cap = (off + j) % cap := by
    rw [← Nat.add_assoc, Nat.add_mod (rpos + used) j, Nat.mod_eq_of_lt hjc]
  have htake : (src.take (min src.length (cap - off))).length
      = min src.length (cap - off) := by
    simp [List.length_take]
  have hinner : (writeAt buf off (src.take (min src.length (cap - off)))).length = cap := by
    rw [writeAt_length]
    · exact hbuf
    · rw [htake, hbuf]; omega
  rw [getD_writeAt _ _ _ _ (by rw [hinner]; simp [List.length_drop]; omega)]
  by_cases hcase : j < min src.length (cap - off)
  · have hidx : (rpos + (used + j)) % cap = off + j := by
      rw [hmodj, Nat.mod_eq_of_lt (by omega)]
    rw [hidx]
    have hc1 : ¬ (0 ≤ off + j ∧ off + j < 0 + (src.drop (min src.length (cap - off))).length) := by
      simp only [List.length_drop, Nat.zero_add]
      omega
    rw [if_neg hc1]
    rw [getD_writeAt _ _ _ _ (by rw [htake, hbuf]; omega)]
    rw [if_pos ⟨by omega, by rw [htake]; omega⟩]
    have heq : off + j - off = j := by omega
    rw [heq, getD_take' _ _ _ hcase]
  · have hwrap : min src.length (cap - off) = cap - off := by omega
    have hidx : (rpos + (used + j)) % cap = j - (cap - off) := by
      rw [hmodj, Nat.mod_eq_sub_mod (show cap ≤ off + j by omega),
        Nat.mod_eq_of_lt (by omega)]
      omega
    rw [hidx]
    rw [if_pos ⟨Nat.zero_le _, by simp only [List.length_drop, htake, hwrap]; omega⟩]
    rw [Nat.sub_zero, getD_drop']
    rw [hwrap]
    congr 1
    omega

lemma self_eq_rangeMap (l : List Nat) :
    l = (List.range l.length).map (fun j => l.getD j 0) := by
  apply List.ext_getElem
  · simp
  intro i h1 h2
  rw [List.getElem_map, List.getElem_range]
  exact (List.getD_eq_getElem l 0 h1).symm

lemma contents_write_success (s : RBState) (data : List Nat) (hInv : Inv s)
    (h0 : data.length ≠ 0) (hfree : data.length ≤ s.cap - (s.wpos - s.rpos)) :
    (write s data).1 = true ∧ contents (write s data).2 = contents s ++ data := by
  obtain ⟨hc, hb, hrw, hcap⟩ := hInv
  simp only [write, if_neg h0,
    if_neg (by omega : ¬ data.length > s.cap - (s.wpos - s.rpos))]
  refine ⟨trivial, ?_⟩
  simp only [contents]
  have hused : s.wpos + data.length - s.rpos = (s.wpos - s.rpos) + data.length := by
    omega
  rw [hused, List.range_add, List.map_append]
  congr 1
  · apply List.map_congr_left
    intro k hk
    rw [List.mem_range] at hk
    exact getD_physWrite_old s.cap s.buf s.wpos s.rpos (s.wpos - s.rpos) k data
      (by omega) hb hc (by omega) hk
  · rw [List.map_map]
    conv_rhs => rw [self_eq_rangeMap data]
    apply List.map_congr_left
    intro j hj
    rw [List.mem_range] at hj
    simp only [Function.comp]
    exact getD_physWrite_new s.cap s.buf s.wpos s.rpos (s.wpos - s.rpos) j data
      (by omega) hb hc (by omega) hj

lemma read_spec (s : RBState) (n : Nat) (hInv : Inv s) :
    (read s n).2.1 ++ contents (read s n).2.2 = contents s := by
  obtain ⟨hc, hb, hrw, hcap⟩ := hInv
  simp only [read]
  by_cases h0 : n = 0
  · simp [if_pos h0]
  rw [if_neg h0]
  by_cases h1 : s.wpos - s.rpos = 0
  · simp [if_pos h1]
  rw [if_neg h1]
  dsimp only
  have htc : min (s.wpos - s.rpos) n ≤ s.cap := by omega
  rw [physRead_rangeMap s.cap s.buf s.rpos (min (s.wpos - s.rpos) n) hb htc hc]
  simp only [contents]
  have h2 : s.wpos - (s.rpos + min (s.wpos - s.rpos) n)
      = (s.wpos - s.rpos) - min (s.wpos - s.rpos) n := by
    omega
  rw [h2]
  have h3 : s.wpos - s.rpos
      = min (s.wpos - s.rpos) n + ((s.wpos - s.rpos) - min (s.wpos - s.rpos) n) := by
    omega
  conv_rhs => rw [h3]
  rw [List.range_add, List.map_append]
  congr 1
  rw [List.map_map]
  apply List.map_congr_left
  intro k hk
  simp only [Function.comp]
  rw [← Nat.add_assoc]

lemma write_true_conditions (s : RBState) (data : List Nat)
    (h : (write s data).1 = true) :
    data.length ≠ 0 ∧ data.length ≤ s.cap - (s.wpos - s.rpos) := by
  simp only [write] at h
  by_cases h0 : data.length = 0
  · rw [if_pos h0] at h
    exact absurd h (by simp)
  rw [if_neg h0] at h
  by_cases h1 : data.length > s.cap - (s.wpos - s.rpos)
  · rw [if_pos h1] at h
    exact absurd h (by simp)
  · exact ⟨h0, by omega⟩

lemma runOps_fifo (ops : List Op) : ∀ s : RBState, Inv s →
    (runOps s ops).2.2 = true →
    (runOps s ops).2.1 ++ contents (runOps s ops).1
      = contents s ++ writesConcat ops := by
  induction ops with
  | nil =>
    intro s _ _
    simp [runOps, writesConcat]
  | cons op rest ih =>
    intro s hs hok
    cases op with
    | wr c =>
      simp only [runOps] at hok ⊢
      rw [Bool.and_eq_true] at hok
      obtain ⟨hw1, hok2⟩ := hok
      obtain ⟨h0, hfree⟩ := write_true_conditions s c hw1
      obtain ⟨-, hcw⟩ := contents_write_success s c hs h0 hfree
      have hInv2 := (write_Inv s c hs).1
      have hih := ih (write s c).2 hInv2 hok2
      rw [hih, hcw]
      rw [List.append_assoc]
      congr 1
    | rd n =>
      simp only [runOps] at hok ⊢
      have hInv2 := (read_Inv s n hs).1
      have hih := ih (read s n).2.2 hInv2 hok
      rw [List.append_assoc, hih, ← List.append_assoc, read_spec s n hs]
      congr 1

end RingBuffer

/-- C6. Ring-buffer FIFO: for every sequence of write and read
operations starting from a freshly initialized buffer, if every write
succeeded (each write fit in the free space), then the concatenation of
all bytes returned by the reads, followed by the bytes still stored in
the buffer, equals the concatenation of the written chunks in write
order; in particular, once the buffer has been drained, the bytes read
are exactly the bytes written, in order, wrap-around included. -/
theorem ring_buffer_fifo (cap : Nat) (hcap : 0 < cap) (ops : List RingBuffer.Op)
    (hok : (RingBuffer.runOps (RingBuffer.initRB cap) ops).2.2 = true) :
    (RingBuffer.runOps (RingBuffer.initRB cap) ops).2.1
      ++ RingBuffer.contents (RingBuffer.runOps (RingBuffer.initRB cap) ops).1
      = RingBuffer.writesConcat ops := by
  have h := RingBuffer.runOps_fifo ops (RingBuffer.initRB cap)
    (RingBuffer.initRB_Inv cap hcap) hok
  rw [h]
  have h0 : RingBuffer.contents (RingBuffer.initRB cap) = [] := by
    simp [RingBuffer.contents, RingBuffer.initRB]
  rw [h0, List.nil_append]

/-- Witness for C6: the wrap-around scenario of the spec (capacity 16,
write 12 bytes, read 8, write 8 more crossing the end of the region,
read 12): all writes succeed, the buffer drains, and the reads return
exactly the written bytes in order. -/
theorem ring_buffer_fifo_witness :
    (RingBuffer.runOps (RingBuffer.initRB 16)
      [.wr [0, 1, 2, 3, 4, 5, 6, 7, 8, 9, 10, 11], .rd 8,
       .wr [100, 101, 102, 103, 104, 105, 106, 107], .rd 12]).2.2 = true
    ∧ (RingBuffer.runOps (RingBuffer.initRB 16)
        [.wr [0, 1, 2, 3, 4, 5, 6, 7, 8, 9, 10, 11], .rd 8,
         .wr [100, 101, 102, 103, 104, 105, 106, 107], .rd 12]).2.1
      ++ RingBuffer.contents (RingBuffer.runOps (RingBuffer.initRB 16)
        [.wr [0, 1, 2, 3, 4, 5, 6, 7, 8, 9, 10, 11], .rd 8,
         .wr [100, 101, 102, 103, 104, 105, 106, 107], .rd 12]).1
      = RingBuffer.writesConcat
        [.wr [0, 1, 2, 3, 4, 5, 6, 7, 8, 9, 10, 11], .rd 8,
         .wr [100, 101, 102, 103, 104, 105, 106, 107], .rd 12] :=
  ⟨by decide, ring_buffer_fifo 16 (by decide)
    [.wr [0, 1, 2, 3, 4, 5, 6, 7, 8, 9, 10, 11], .rd 8,
     .wr [100, 101, 102, 103, 104, 105, 106, 107], .rd 12] (by decide)⟩

/-- C8. Ring-buffer cursor invariant: a freshly initialized buffer of
positive capacity satisfies read cursor at most write cursor with their
distance at most the capacity, and each of the four operations (write,
write_atomic, read, skip) preserves the invariant and never moves either
cursor backwards. -/
theorem ring_buffer_cursor_invariant :
    (∀ cap : Nat, 0 < cap → RingBuffer.Inv (RingBuffer.initRB cap))
    ∧ (∀ (s : RingBuffer.RBState) (op : RingBuffer.RBOp), RingBuffer.Inv s →
        RingBuffer.Inv (RingBuffer.applyOp s op)
        ∧ s.rpos ≤ (RingBuffer.applyOp s op).rpos
        ∧ s.wpos ≤ (RingBuffer.applyOp s op).wpos) := by
  constructor
  · intro cap hcap
    exact ⟨hcap, by simp [RingBuffer.initRB], Nat.le_refl _, by simp [RingBuffer.initRB]⟩
  · intro s op h
    cases op with
    | wr data => exact RingBuffer.write_Inv s data h
    | wrAtomic data => exact RingBuffer.write_atomic_Inv s data h
    | rd n => exact RingBuffer.read_Inv s n h
    | sk n => exact RingBuffer.skip_Inv s n h

/-- Witness for C8 at a concrete buffer and operation. -/
theorem ring_buffer_cursor_invariant_witness :
    RingBuffer.Inv (RingBuffer.initRB 8)
    ∧ (RingBuffer.Inv (RingBuffer.applyOp (RingBuffer.initRB 8) (.wr [1, 2, 3]))
        ∧ (RingBuffer.initRB 8).rpos
            ≤ (RingBuffer.applyOp (RingBuffer.initRB 8) (.wr [1, 2, 3])).rpos
        ∧ (RingBuffer.initRB 8).wpos
            ≤ (RingBuffer.applyOp (RingBuffer.initRB 8) (.wr [1, 2, 3])).wpos) :=
  ⟨ring_buffer_cursor_invariant.1 8 (by decide),
   ring_buffer_cursor_invariant.2 (RingBuffer.initRB 8) (.wr [1, 2, 3]) (by decide)⟩

/-- C7. Ring-buffer backpressure: when the free space is smaller than the
requested size, write returns false and leaves both cursors (and the data
region) unchanged; and from any state reached by a subsequent read in
which the free space now covers the request, the same write succeeds. -/
theorem ring_buffer_backpressure (s : RingBuffer.RBState) (data : List Nat)
    (_inv : RingBuffer.Inv s)
    (hfull : RingBuffer.get_free_space s < data.length) :
    (RingBuffer.write s data).1 = false
    ∧ (RingBuffer.write s data).2 = s
    ∧ (∀ n : Nat,
        data.length ≤ RingBuffer.get_free_space (RingBuffer.read s n).2.2 →
        (RingBuffer.write (RingBuffer.read s n).2.2 data).1 = true) := by
  have h0 : data.length ≠ 0 := by
    have := hfull
    unfold RingBuffer.get_free_space at this
    omega
  refine ⟨?_, ?_, ?_⟩
  · rw [RingBuffer.write, if_neg h0]
    rw [RingBuffer.get_free_space] at hfull
    simp only [if_pos hfull]
  · rw [RingBuffer.write, if_neg h0]
    rw [RingBuffer.get_free_space] at hfull
    simp only [if_pos hfull]
  · intro n hfree
    rw [RingBuffer.write, if_neg h0]
    rw [RingBuffer.get_free_space] at hfree
    simp only [if_neg (by omega : ¬ data.length >
      (RingBuffer.read s n).2.2.cap
        - ((RingBuffer.read s n).2.2.wpos - (RingBuffer.read s n).2.2.rpos))]

/-- Witness for C7: a full 4-byte buffer rejects a 2-byte write leaving
the state unchanged, and after reading 2 bytes the same write succeeds. -/
theorem ring_buffer_backpressure_witness :
    (RingBuffer.write
        (RingBuffer.write (RingBuffer.initRB 4) [1, 2, 3, 4]).2 [5, 6]).1 = false
    ∧ (RingBuffer.write
        (RingBuffer.write (RingBuffer.initRB 4) [1, 2, 3, 4]).2 [5, 6]).2
      = (RingBuffer.write (RingBuffer.initRB 4) [1, 2, 3, 4]).2
    ∧ (RingBuffer.write
        (RingBuffer.read
          (RingBuffer.write (RingBuffer.initRB 4) [1, 2, 3, 4]).2 2).2.2 [5, 6]).1
      = true := by
  have h := ring_buffer_backpressure
    (RingBuffer.write (RingBuffer.initRB 4) [1, 2, 3, 4]).2 [5, 6]
    (by decide) (by decide)
  exact ⟨h.1, h.2.1, h.2.2 2 (by decide)⟩

/-- C3. The claim says receive_message returns the first complete
message with exactly its payload_size payload bytes, consumes exactly
header plus payload bytes, and leaves following messages intact, so that
messages arrive in id order with none skipped.  The code instead peeks up
to max_message_size bytes, deserialize assigns the whole remainder of the
peeked bytes as payload, and skip consumes everything peeked: with two
complete messages buffered (ids 1 and 2, default 64 KiB message cap), the
returned first message carries 25 payload bytes (its one declared byte
followed by the serialized second message) instead of 1, the buffer is
left empty, and the second message is never returned. -/
theorem receive_message_swallows_second_message :
    (SharedMemory.receive_message 65536 SharedMemory.twoMsgState).1
      = some { header := SharedMemory.msgA.header,
               payload := [7] ++ SharedMemory.serialize SharedMemory.msgB }
    ∧ (SharedMemory.receive_message 65536 SharedMemory.twoMsgState).1
        ≠ some SharedMemory.msgA
    ∧ RingBuffer.contents
        (SharedMemory.receive_message 65536 SharedMemory.twoMsgState).2 = [] := by
  decide

end BitRPC
